import Mathlib

/-!
Verification of the driveway_app backend core against its design spec.

Shallow embedding conventions:
* Python `float` values are modelled as exact rationals (`ℚ`) where the code
  only does field arithmetic and comparisons, and as reals (`ℝ`) where the
  code calls transcendental functions (`math.sin`, `math.log10`, ...).
* `datetime` values are modelled by their absolute timestamp in minutes
  together with the `hour` / `weekday()` projections the code reads.
* `Optional[T]` becomes `Option T`; Python truthiness of `Optional[int]`
  (`None` and `0` are falsy) is modelled explicitly by `pyTruthy`.
* The storage collaborator (`app/storage.py`) is out of scope per the spec;
  functions that read it (`get_occupancy_history`, `get_spot`, `get_reviews`)
  are modelled by passing the fetched data as an argument.
-/

/-- Python `int()` applied to a rational: truncation toward zero. -/
def pyInt (q : ℚ) : ℤ := if 0 ≤ q then ⌊q⌋ else ⌈q⌉

/-- Python truthiness of an `Optional[int]` value: `None` and `0` are falsy. -/
def pyTruthy : Option ℤ → Bool
  | none => false
  | some d => d != 0

/-- Data model of `app/schemas/parking.py` `ParkingSpot` (float fields as `ℚ`,
`datetime` fields as minute timestamps). -/
structure ParkingSpot where
  id : String
  latitude : ℚ
  longitude : ℚ
  street_name : String
  max_duration_minutes : Option ℤ := none
  price_per_hour_usd : Option ℚ := none
  safety_score : ℚ
  tourism_density : ℚ
  meter_status : String
  meter_status_confidence : ℚ
  distance_to_user_m : Option ℚ := none
  distance_to_destination_m : Option ℚ := none
  review_count : ℤ
  last_updated_at : ℚ
  composite_score : Option ℚ := none
  score : Option ℚ := none
  is_occupied : Bool := false
  estimated_availability_time : Option ℚ := none
deriving DecidableEq

/-- Data model of `app/schemas/occupancy.py` `OccupancyEvent` (the fields the
availability predictor reads: `event_type` and `timestamp`, in minutes). -/
structure OccEvent where
  event_type : String
  timestamp : ℚ
deriving DecidableEq

/-- A `datetime` as the availability predictor consumes it: the absolute
timestamp in minutes plus the `hour` and `weekday()` projections. -/
structure PyDateTime where
  minutes : ℚ
  hour : ℕ
  weekday : ℕ
deriving DecidableEq

/-- Stable ascending insertion by a rational key: the element is placed before
the first element of equal or larger key (Python `sorted` is stable). -/
def insAsc (key : α → ℚ) (x : α) : List α → List α
  | [] => [x]
  | y :: ys => if key x ≤ key y then x :: y :: ys else y :: insAsc key x ys

/-- Stable ascending sort by a rational key, modelling Python `sorted(l, key=k)`. -/
def sortAsc (key : α → ℚ) : List α → List α
  | [] => []
  | x :: xs => insAsc key x (sortAsc key xs)

/-- Stable descending insertion by a rational key: the element is placed before
the first element of equal or smaller key. -/
def insDesc (key : α → ℚ) (x : α) : List α → List α
  | [] => [x]
  | y :: ys => if key y ≤ key x then x :: y :: ys else y :: insDesc key x ys

/-- Stable descending sort by a rational key, modelling Python
`l.sort(key=k, reverse=True)` (stable: ties keep input order). -/
def sortDesc (key : α → ℚ) : List α → List α
  | [] => []
  | x :: xs => insDesc key x (sortDesc key xs)

/-- The duration-collection loop of `predict_availability_time`
(`availability_predictor.py` lines 48-57): walk the time-sorted history,
remember the last `"check_in"` timestamp, and on a `"check_out"` with a
pending check-in record the dwell time in minutes. -/
def durationsGo : Option ℚ → List OccEvent → List ℚ
  | _, [] => []
  | checkIn, e :: rest =>
    if e.event_type = "check_in" then durationsGo (some e.timestamp) rest
    else if e.event_type = "check_out" then
      match checkIn with
      | some t => (e.timestamp - t) :: durationsGo none rest
      | none => durationsGo none rest
    else durationsGo checkIn rest

/-- Time-of-day and weekend adjustment of the average dwell duration
(`availability_predictor.py` lines 62-79): x1.3 in peak hours 8-10 and 17-19,
x0.7 at night (hour >= 22 or <= 6), x1.2 on weekends, capped at 240 minutes. -/
def adjustDuration (avg : ℚ) (hour weekday : ℕ) : ℚ :=
  let a1 :=
    if (8 ≤ hour ∧ hour ≤ 10) ∨ (17 ≤ hour ∧ hour ≤ 19) then avg * (13/10)
    else if 22 ≤ hour ∨ hour ≤ 6 then avg * (7/10)
    else avg
  let a2 := if 5 ≤ weekday then a1 * (6/5) else a1
  min a2 240

/-- The no-history default of `predict_availability_time`: `min(max_duration,
120)` when the spot declares a truthy max duration, else 60 minutes
(`if spot.max_duration_minutes:` — `None` and `0` are both falsy). -/
def defaultMinutes (maxDur : Option ℤ) : ℚ :=
  match maxDur with
  | some m => if m ≠ 0 then ((min m 120 : ℤ) : ℚ) else 60
  | none => 60

/-- Embedding of `predict_availability_time` from
`app/services/availability_predictor.py`.  The storage reads
`get_occupancy_history(spot_id)` and `get_spot(spot_id)` are passed as the
`history` and `spot` arguments; the returned datetime is the predicted
absolute timestamp in minutes. -/
def predict_availability_time (history : List OccEvent) (spot : Option ParkingSpot)
    (current : PyDateTime) (estimated_duration_minutes : Option ℤ) : Option ℚ :=
  match spot with
  | none => none
  | some spot =>
    if pyTruthy estimated_duration_minutes then
      some (current.minutes + ((pyInt ((estimated_duration_minutes.getD 0 : ℚ) * (6/5))) : ℚ))
    else if history = [] then
      some (current.minutes + defaultMinutes spot.max_duration_minutes)
    else
      let durations := durationsGo none (sortAsc (fun e => e.timestamp) history)
      if durations ≠ [] then
        some (current.minutes +
          ((pyInt (adjustDuration (durations.sum / durations.length) current.hour current.weekday)) : ℚ))
      else
        some (current.minutes + defaultMinutes spot.max_duration_minutes)

/-- A concrete spot with no declared max duration, used for evaluations. -/
def spotNoMax : ParkingSpot :=
  { id := "spot-1", latitude := 0, longitude := 0, street_name := "Broadway",
    safety_score := 80, tourism_density := 70, meter_status := "working",
    meter_status_confidence := 9/10, review_count := 0, last_updated_at := 0 }

/-- A concrete weekday, midday instant (hour 12, Wednesday): none of the
peak / night / weekend adjustments apply. -/
def timeNoon : PyDateTime := { minutes := 0, hour := 12, weekday := 2 }

/-- C1: with no caller-supplied duration, a history consisting of an
`occupied` event followed by an `available` event 90 minutes later does NOT
produce `now + 90`: the code pairs `"check_in"`/`"check_out"` event types, so
the `occupied`/`available` events written by the occupancy router are never
matched and the no-history fallback (60 minutes) is returned instead; the
same history under the `"check_in"`/`"check_out"` labels yields `now + 90`. -/
theorem predict_ignores_occupied_available_pairs :
    predict_availability_time
      [⟨"occupied", 100⟩, ⟨"available", 190⟩] (some spotNoMax) timeNoon none = some 60 ∧
    predict_availability_time
      [⟨"check_in", 100⟩, ⟨"check_out", 190⟩] (some spotNoMax) timeNoon none = some 90 ∧
    (60 : ℚ) ≠ 90 := by
  have h1 : ("occupied" : String) ≠ "check_in" := by decide
  have h2 : ("available" : String) ≠ "check_in" := by decide
  have h3 : ("available" : String) ≠ "check_out" := by decide
  have h4 : ("check_out" : String) ≠ "check_in" := by decide
  refine ⟨?_, ?_, by norm_num⟩ <;>
    norm_num [predict_availability_time, pyTruthy, durationsGo, sortAsc, insAsc,
      adjustDuration, defaultMinutes, pyInt, spotNoMax, timeNoon, h1, h2, h3, h4,
      List.cons_ne_nil]

/-- C2 counterexample: a caller-supplied estimated duration of 0 is falsy and
is ignored (the 60-minute default is returned, not `now + 0`), and a duration
of 1 yields `now + int(1.2) = now + 1`, not `now + 1.2`. -/
theorem predict_estimated_duration_not_always_buffered :
    predict_availability_time [] (some spotNoMax) timeNoon (some 0) = some 60 ∧
    (60 : ℚ) ≠ 0 + (6/5) * 0 ∧
    predict_availability_time [] (some spotNoMax) timeNoon (some 1) = some 1 ∧
    (1 : ℚ) ≠ 0 + (6/5) * 1 := by
  refine ⟨?_, by norm_num, ?_, by norm_num⟩ <;>
    norm_num [predict_availability_time, pyTruthy, durationsGo, sortAsc, insAsc,
      adjustDuration, defaultMinutes, pyInt, spotNoMax, timeNoon, String.reduceEq]

/-- C2 (amended): for every existing spot and every NONZERO caller-supplied
estimated duration `d`, the prediction is `now + int(d * 1.2)` minutes
(Python `int` truncation); in particular `d = 100` gives exactly
`now + 120`. -/
theorem predict_with_estimated_duration (history : List OccEvent) (spot : ParkingSpot)
    (current : PyDateTime) (d : ℤ) (hd : d ≠ 0) :
    predict_availability_time history (some spot) current (some d) =
      some (current.minutes + ((pyInt ((d : ℚ) * (6/5))) : ℚ)) := by
  simp [predict_availability_time, pyTruthy, hd]

/-- C2 witness: at duration 100 the theorem gives exactly `now + 120`. -/
theorem predict_with_estimated_duration_witness :
    predict_availability_time [] (some spotNoMax) timeNoon (some 100) = some 120 := by
  have h := predict_with_estimated_duration [] spotNoMax timeNoon 100 (by decide)
  rw [h]
  norm_num [pyInt, timeNoon]

/-- Embedding of `compute_spot_score` from `app/services/scoring.py`: the
storage read `get_reviews(spot_id)` is passed as the list of review ratings.
Returns 0.0 with no reviews, else
`min(avg_rating * (1 + log10(review_count + 1)) * 20, 100.0)`. -/
noncomputable def compute_spot_score (ratings : List ℚ) : ℝ :=
  if ratings = [] then 0
  else
    ((ratings.sum / ratings.length : ℚ) : ℝ) * (1 + Real.logb 10 (ratings.length + 1)) * 20
      ⊓ 100

/-- C3: `compute_spot_score` returns exactly 0.0 with no reviews, otherwise
`min(avg_rating * (1 + log10(review_count + 1)) * 20, 100.0)`, and a single
5-star review hits the 100.0 cap (raw value `5 * (1 + log10 2) * 20 > 100`). -/
theorem compute_spot_score_spec :
    compute_spot_score [] = 0 ∧
    (∀ ratings : List ℚ, ratings ≠ [] →
      compute_spot_score ratings =
        min (((ratings.sum / ratings.length : ℚ) : ℝ) *
          (1 + Real.logb 10 (ratings.length + 1)) * 20) 100) ∧
    compute_spot_score [5] = 100 := by
  refine ⟨by simp [compute_spot_score], fun r hr => by simp [compute_spot_score, hr], ?_⟩
  have hlog : (0 : ℝ) ≤ Real.logb 10 2 :=
    Real.logb_nonneg (by norm_num) (by norm_num)
  have h5 : compute_spot_score [5] =
      ((5 : ℝ) * (1 + Real.logb 10 2) * 20) ⊓ 100 := by
    simp [compute_spot_score]
    norm_num
  rw [h5, inf_eq_right]
  nlinarith [hlog]

/-- C3 witness: the non-empty branch of the theorem applied to one 3-star
review. -/
theorem compute_spot_score_spec_witness :
    compute_spot_score [3] = min ((3 : ℝ) * (1 + Real.logb 10 2) * 20) 100 := by
  have h := compute_spot_score_spec.2.1 [3] (by simp)
  rw [h]
  norm_num

theorem insDesc_perm (key : α → ℚ) (x : α) :
    ∀ l : List α, (insDesc key x l).Perm (x :: l)
  | [] => List.Perm.refl _
  | y :: ys => by
    unfold insDesc
    by_cases h : key y ≤ key x
    · simp [h]
    · simp only [h, if_false]
      exact ((insDesc_perm key x ys).cons y).trans (List.Perm.swap x y ys)

theorem sortDesc_perm (key : α → ℚ) :
    ∀ l : List α, (sortDesc key l).Perm l
  | [] => List.Perm.refl _
  | x :: xs =>
    (insDesc_perm key x (sortDesc key xs)).trans ((sortDesc_perm key xs).cons x)

theorem mem_insDesc (key : α → ℚ) (x a : α) (l : List α) :
    a ∈ insDesc key x l ↔ a = x ∨ a ∈ l := by
  constructor
  · intro h
    have := (insDesc_perm key x l).mem_iff.mp h
    simpa using this
  · intro h
    exact (insDesc_perm key x l).mem_iff.mpr (by simpa using h)

theorem mem_sortDesc (key : α → ℚ) (a : α) (l : List α) :
    a ∈ sortDesc key l ↔ a ∈ l :=
  (sortDesc_perm key l).mem_iff

theorem insDesc_pairwise (key : α → ℚ) (x : α) (l : List α)
    (h : l.Pairwise (fun a b => key b ≤ key a)) :
    (insDesc key x l).Pairwise (fun a b => key b ≤ key a) := by
  induction l with
  | nil => simp [insDesc]
  | cons y ys ih =>
    rw [List.pairwise_cons] at h
    unfold insDesc
    by_cases hc : key y ≤ key x
    · rw [if_pos hc, List.pairwise_cons]
      refine ⟨?_, List.pairwise_cons.mpr h⟩
      intro z hz
      rcases List.mem_cons.mp hz with rfl | hz'
      · exact hc
      · exact le_trans (h.1 z hz') hc
    · rw [if_neg hc, List.pairwise_cons]
      refine ⟨?_, ih h.2⟩
      intro z hz
      rcases (mem_insDesc key x z ys).mp hz with rfl | hz'
      · exact le_of_lt (lt_of_not_le hc)
      · exact h.1 z hz'

theorem sortDesc_pairwise (key : α → ℚ) :
    ∀ l : List α, (sortDesc key l).Pairwise (fun a b => key b ≤ key a)
  | [] => List.Pairwise.nil
  | x :: xs => insDesc_pairwise key x _ (sortDesc_pairwise key xs)

theorem insDesc_map (key : β → ℚ) (f : α → β) (x : α) :
    ∀ l : List α,
      insDesc key (f x) (l.map f) = (insDesc (fun a => key (f a)) x l).map f
  | [] => rfl
  | y :: ys => by
    unfold insDesc
    by_cases h : key (f y) ≤ key (f x)
    · simp [h]
    · simp [h, insDesc_map key f x ys]

theorem sortDesc_map (key : β → ℚ) (f : α → β) :
    ∀ l : List α, sortDesc key (l.map f) = (sortDesc (fun a => key (f a)) l).map f
  | [] => rfl
  | x :: xs => by
    unfold sortDesc
    rw [List.map_cons]
    show insDesc key (f x) ((xs.map f) |> sortDesc key) = _
    rw [sortDesc_map key f xs, insDesc_map key f x]

/-- Strict ordering that characterises a STABLE descending sort of a list
tagged with distinct, increasing indices: either the key strictly drops, or
the keys tie and the original positions are in order. -/
def lexDesc (key : α → ℚ) (idx : α → ℕ) (a b : α) : Prop :=
  key b < key a ∨ (key a = key b ∧ idx a < idx b)

theorem insDesc_lex (key : α → ℚ) (idx : α → ℕ) (x : α) (l : List α)
    (hpw : l.Pairwise (lexDesc key idx))
    (hidx : ∀ y ∈ l, idx x < idx y) :
    (insDesc key x l).Pairwise (lexDesc key idx) := by
  induction l with
  | nil => simp [insDesc]
  | cons y ys ih =>
    rw [List.pairwise_cons] at hpw
    unfold insDesc
    by_cases hc : key y ≤ key x
    · rw [if_pos hc, List.pairwise_cons]
      constructor
      · intro z hz
        rcases List.mem_cons.mp hz with rfl | hz'
        · rcases lt_or_eq_of_le hc with hlt | heq
          · exact Or.inl hlt
          · exact Or.inr ⟨heq.symm, hidx z (List.mem_cons_self _ _)⟩
        · rcases hpw.1 z hz' with hlt | ⟨heq, _⟩
          · exact Or.inl (lt_of_lt_of_le hlt hc)
          · rcases lt_or_eq_of_le hc with hlt | heq'
            · exact Or.inl (heq ▸ hlt)
            · exact Or.inr ⟨heq' ▸ heq, hidx z (List.mem_cons_of_mem _ hz')⟩
      · exact List.pairwise_cons.mpr hpw
    · rw [if_neg hc, List.pairwise_cons]
      constructor
      · intro z hz
        rcases (mem_insDesc key x z ys).mp hz with rfl | hz'
        · exact Or.inl (lt_of_not_le hc)
        · exact hpw.1 z hz'
      · exact ih hpw.2 (fun y hy => hidx y (List.mem_cons_of_mem _ hy))

theorem sortDesc_lex (key : α → ℚ) (idx : α → ℕ) :
    ∀ l : List α, l.Pairwise (fun a b => idx a < idx b) →
      (sortDesc key l).Pairwise (lexDesc key idx)
  | [], _ => List.Pairwise.nil
  | x :: xs, h => by
    rw [List.pairwise_cons] at h
    refine insDesc_lex key idx x _ (sortDesc_lex key idx xs h.2) ?_
    intro y hy
    exact h.1 y ((mem_sortDesc key y xs).mp hy)

/-- Embedding of `get_time_of_day_weight` from `app/services/scoring.py`
(`None` compares unequal to every string, giving the final 0 branch). -/
def get_time_of_day_weight (time_of_day : Option String) : ℚ :=
  if time_of_day = some "morning" then 5
  else if time_of_day = some "afternoon" then 0
  else if time_of_day = some "evening" then -5
  else if time_of_day = some "night" then -10
  else 0

/-- Embedding of `get_tourism_bias_weight` from `app/services/scoring.py`. -/
def get_tourism_bias_weight (bias : Option String) : ℚ :=
  if bias = some "low" then -(2/5)
  else if bias = some "medium" then 0
  else if bias = some "high" then 2/5
  else 0

/-- The `meter_penalty` local of `score_and_filter_spots`: `-20 * confidence`
when the meter is broken, else 0 (the value is added to the composite). -/
def meter_penalty (s : ParkingSpot) : ℚ :=
  if s.meter_status = "broken" then -20 * s.meter_status_confidence else 0

/-- The composite score computed inside the `score_and_filter_spots` loop:
`base_score + tourism_component + time_component + meter_penalty`. -/
def compositeScore (s : ParkingSpot) (time_of_day tourism_bias : Option String) : ℚ :=
  s.safety_score + s.tourism_density * get_tourism_bias_weight tourism_bias +
    get_time_of_day_weight time_of_day + meter_penalty s

/-- `ParkingSpot(**data)` with `data["composite_score"] = composite`: the spot
copied with its composite score filled in. -/
def withScore (time_of_day tourism_bias : Option String) (s : ParkingSpot) : ParkingSpot :=
  { s with composite_score := some (compositeScore s time_of_day tourism_bias) }

/-- First `continue` guard of the loop: skip when a max walk distance is given,
the spot has a distance to destination, and it exceeds the max. -/
def exceedsWalk (max_walk_m : Option ℚ) (s : ParkingSpot) : Bool :=
  match max_walk_m, s.distance_to_destination_m with
  | some mw, some d => decide (mw < d)
  | _, _ => false

/-- Second `continue` guard of the loop: skip when a minimum safety threshold
is given and the spot's safety score is below it. -/
def belowSafety (min_safety : Option ℚ) (s : ParkingSpot) : Bool :=
  match min_safety with
  | some ms => decide (s.safety_score < ms)
  | none => false

/-- A spot survives the two `continue` guards. -/
def keepSpot (min_safety max_walk_m : Option ℚ) (s : ParkingSpot) : Bool :=
  !(exceedsWalk max_walk_m s || belowSafety min_safety s)

/-- The result-building loop of `score_and_filter_spots` (`scoring.py`
lines 66-92): walk the input in order, drop the spots hitting a `continue`
guard, and append each survivor with its composite score filled in. -/
def scoreFilterLoop (min_safety max_walk_m : Option ℚ)
    (time_of_day tourism_bias : Option String) : List ParkingSpot → List ParkingSpot
  | [] => []
  | s :: rest =>
    if exceedsWalk max_walk_m s || belowSafety min_safety s then
      scoreFilterLoop min_safety max_walk_m time_of_day tourism_bias rest
    else
      withScore time_of_day tourism_bias s ::
        scoreFilterLoop min_safety max_walk_m time_of_day tourism_bias rest

/-- The sort key `lambda s: s.composite_score or 0` (a `None` score — and a
0.0 one, which `or` also replaces — both yield the key 0). -/
def pySortKey (s : ParkingSpot) : ℚ := s.composite_score.getD 0

/-- Embedding of `score_and_filter_spots` from `app/services/scoring.py`:
build the filtered, scored list in input order and sort it descending by
composite score with Python's stable `list.sort(key=..., reverse=True)`. -/
def score_and_filter_spots (spots : List ParkingSpot) (min_safety max_walk_m : Option ℚ)
    (time_of_day tourism_bias : Option String) : List ParkingSpot :=
  sortDesc pySortKey (scoreFilterLoop min_safety max_walk_m time_of_day tourism_bias spots)

theorem scoreFilterLoop_eq (min_safety max_walk_m : Option ℚ)
    (time_of_day tourism_bias : Option String) :
    ∀ spots : List ParkingSpot,
      scoreFilterLoop min_safety max_walk_m time_of_day tourism_bias spots =
        (spots.filter (keepSpot min_safety max_walk_m)).map (withScore time_of_day tourism_bias)
  | [] => rfl
  | s :: rest => by
    unfold scoreFilterLoop
    by_cases h : exceedsWalk max_walk_m s || belowSafety min_safety s
    · simp [h, keepSpot, scoreFilterLoop_eq min_safety max_walk_m time_of_day tourism_bias rest]
    · simp [h, keepSpot, scoreFilterLoop_eq min_safety max_walk_m time_of_day tourism_bias rest]

/-- C4: `score_and_filter_spots` (a) returns a permutation of the input spots
that survive the walk-distance and safety filters, each copied with the
composite score `safety + tourism_density * tourism_weight + time_weight +
meter_penalty`; (b) the output is sorted descending by the composite sort
key; (c) every output spot carries its own composite score; (d) the sort is
stable: tagging the filtered list with its (increasing) input positions, the
output order refines the descending key order by input position on ties. -/
theorem score_and_filter_spots_spec (spots : List ParkingSpot)
    (min_safety max_walk_m : Option ℚ) (time_of_day tourism_bias : Option String) :
    (score_and_filter_spots spots min_safety max_walk_m time_of_day tourism_bias).Perm
      ((spots.filter (keepSpot min_safety max_walk_m)).map (withScore time_of_day tourism_bias)) ∧
    (score_and_filter_spots spots min_safety max_walk_m time_of_day tourism_bias).Pairwise
      (fun a b => pySortKey b ≤ pySortKey a) ∧
    (∀ s ∈ score_and_filter_spots spots min_safety max_walk_m time_of_day tourism_bias,
      s.composite_score = some (s.safety_score +
        s.tourism_density * get_tourism_bias_weight tourism_bias +
        get_time_of_day_weight time_of_day + meter_penalty s)) ∧
    (∀ l : List (ℕ × ParkingSpot),
      l.map Prod.snd =
        (spots.filter (keepSpot min_safety max_walk_m)).map (withScore time_of_day tourism_bias) →
      l.Pairwise (fun a b => a.1 < b.1) →
      ∃ lt : List (ℕ × ParkingSpot),
        lt.map Prod.snd = score_and_filter_spots spots min_safety max_walk_m time_of_day tourism_bias ∧
        lt.Perm l ∧
        lt.Pairwise (lexDesc (fun p => pySortKey p.2) Prod.fst)) := by
  refine ⟨?_, ?_, ?_, ?_⟩
  · rw [score_and_filter_spots, scoreFilterLoop_eq]
    exact sortDesc_perm _ _
  · exact sortDesc_pairwise _ _
  · intro s hs
    rw [score_and_filter_spots, mem_sortDesc, scoreFilterLoop_eq] at hs
    rcases List.mem_map.mp hs with ⟨s₀, _, rfl⟩
    rfl
  · intro l hmap hpw
    refine ⟨sortDesc (fun p => pySortKey p.2) l, ?_, sortDesc_perm _ _, sortDesc_lex _ _ l hpw⟩
    rw [score_and_filter_spots, scoreFilterLoop_eq, ← hmap, sortDesc_map]

/-- A concrete spot with a broken meter, for witnesses. -/
def spotBroken : ParkingSpot :=
  { id := "spot-2", latitude := 1, longitude := 1, street_name := "Church St",
    safety_score := 60, tourism_density := 50, meter_status := "broken",
    meter_status_confidence := 4/5, review_count := 0, last_updated_at := 0 }

/-- C4 witness: the stability clause of the theorem applied to a concrete
two-spot input with no filters, tagged with positions 0 and 1. -/
theorem score_and_filter_spots_spec_witness :
    ∃ lt : List (ℕ × ParkingSpot),
      lt.map Prod.snd = score_and_filter_spots [spotNoMax, spotBroken] none none none none ∧
      lt.Perm [(0, withScore none none spotNoMax), (1, withScore none none spotBroken)] ∧
      lt.Pairwise (lexDesc (fun p => pySortKey p.2) Prod.fst) := by
  have h := (score_and_filter_spots_spec [spotNoMax, spotBroken] none none none none).2.2.2
    [(0, withScore none none spotNoMax), (1, withScore none none spotBroken)]
  refine h ?_ ?_
  · simp [keepSpot, exceedsWalk, belowSafety, spotNoMax, spotBroken]
  · simp

/-- `math.radians`: degrees to radians. -/
noncomputable def deg2rad (x : ℝ) : ℝ := x * (Real.pi / 180)

/-- `math.atan2(y, x)` on real inputs (the signed-zero distinction of floats
has no counterpart in `ℝ`; `atan2(0, 0) = 0`). -/
noncomputable def pyAtan2 (y x : ℝ) : ℝ :=
  if 0 < x then Real.arctan (y / x)
  else if x < 0 then
    (if 0 ≤ y then Real.arctan (y / x) + Real.pi else Real.arctan (y / x) - Real.pi)
  else
    (if 0 < y then Real.pi / 2 else if y < 0 then -(Real.pi / 2) else 0)

/-- The intermediate `h` of `haversine_distance_m` (`geo.py` line 13):
`sin(dlat/2)**2 + cos(lat1)*cos(lat2)*sin(dlon/2)**2` on the
radian-converted coordinates. -/
noncomputable def havH (a b : ℝ × ℝ) : ℝ :=
  Real.sin ((deg2rad b.1 - deg2rad a.1) / 2) ^ 2 +
    Real.cos (deg2rad a.1) * Real.cos (deg2rad b.1) *
      Real.sin ((deg2rad b.2 - deg2rad a.2) / 2) ^ 2

/-- Embedding of `haversine_distance_m` from `app/services/geo.py`:
`R * c` with `R = 6371000` and `c = 2 * atan2(sqrt(h), sqrt(1 - h))`.
The function is total: the source performs no domain validation. -/
noncomputable def haversine_distance_m (a b : ℝ × ℝ) : ℝ :=
  6371000 * (2 * pyAtan2 (Real.sqrt (havH a b)) (Real.sqrt (1 - havH a b)))

theorem sin_half_sub_sq_comm (u v : ℝ) :
    Real.sin ((u - v) / 2) ^ 2 = Real.sin ((v - u) / 2) ^ 2 := by
  rw [show (u - v) / 2 = -((v - u) / 2) by ring, Real.sin_neg]
  ring

theorem havH_comm (a b : ℝ × ℝ) : havH a b = havH b a := by
  unfold havH
  rw [sin_half_sub_sq_comm (deg2rad b.1) (deg2rad a.1),
    sin_half_sub_sq_comm (deg2rad b.2) (deg2rad a.2)]
  ring

theorem havH_self (a : ℝ × ℝ) : havH a a = 0 := by
  unfold havH
  simp

theorem haversine_self (a : ℝ × ℝ) : haversine_distance_m a a = 0 := by
  unfold haversine_distance_m
  rw [havH_self]
  norm_num [pyAtan2]

/-- The coordinate domain the spec requires the distance function to
validate: latitudes within plus/minus 90 degrees, longitudes within
plus/minus 180 degrees (and, for floats, not NaN — `ℝ` has no NaN). -/
def inCoordDomain (p : ℝ × ℝ) : Prop :=
  -90 ≤ p.1 ∧ p.1 ≤ 90 ∧ -180 ≤ p.2 ∧ p.2 ≤ 180

/-- C5 counterexample: the point (200, 123) is outside the coordinate domain,
yet `haversine_distance_m` does not reject it — it returns a distance
(here 0): the source performs no domain validation at all. -/
theorem haversine_no_domain_validation :
    ¬ inCoordDomain (200, 123) ∧ haversine_distance_m (200, 123) (200, 123) = 0 := by
  constructor
  · intro h
    have := h.2.1
    norm_num at this
  · exact haversine_self (200, 123)

/-- C5 (amended): `haversine_distance_m` is a pure total function — symmetric
and zero on identical points — defined on EVERY pair of real coordinates,
in-range or not; it performs no domain validation and never rejects an
input. -/
theorem haversine_pure_total (p q : ℝ × ℝ) :
    haversine_distance_m p q = haversine_distance_m q p ∧
      haversine_distance_m p p = 0 := by
  constructor
  · unfold haversine_distance_m
    rw [havH_comm]
  · exact haversine_self p

/-- The per-spot fallback score of `ParkingRecommender._fallback_ranking`
(`recommender.py` lines 92-101): `max(0.0, 100.0 - distance / 10.0)` with the
haversine distance from the user to the spot. -/
noncomputable def fallback_score (user_lat user_lng : ℚ) (s : ParkingSpot) : ℝ :=
  max 0 (100 - haversine_distance_m ((user_lat : ℝ), (user_lng : ℝ))
    ((s.latitude : ℝ), (s.longitude : ℝ)) / 10)

/-- The score-assignment pass of `_fallback_ranking`: every input spot is
paired with its fallback score, in input order (the subsequent
`sort(reverse=True)` only permutes these pairs). -/
noncomputable def fallback_scored (spots : List ParkingSpot) (user_lat user_lng : ℚ) :
    List (ParkingSpot × ℝ) :=
  spots.map (fun s => (s, fallback_score user_lat user_lng s))

/-- C9: in fallback mode every spot is scored `max(0, 100 - distance_m/10)`,
so of any two scored spots against the same user coordinates, the one at the
smaller haversine distance receives the larger-or-equal score. -/
theorem fallback_closer_scores_higher (spots : List ParkingSpot) (user_lat user_lng : ℚ)
    (s₁ s₂ : ParkingSpot) (sc₁ sc₂ : ℝ)
    (h₁ : (s₁, sc₁) ∈ fallback_scored spots user_lat user_lng)
    (h₂ : (s₂, sc₂) ∈ fallback_scored spots user_lat user_lng)
    (hd : haversine_distance_m ((user_lat : ℝ), (user_lng : ℝ))
        ((s₁.latitude : ℝ), (s₁.longitude : ℝ)) ≤
      haversine_distance_m ((user_lat : ℝ), (user_lng : ℝ))
        ((s₂.latitude : ℝ), (s₂.longitude : ℝ))) :
    sc₁ = fallback_score user_lat user_lng s₁ ∧ sc₂ ≤ sc₁ := by
  have e₁ : sc₁ = fallback_score user_lat user_lng s₁ := by
    rcases List.mem_map.mp h₁ with ⟨s, _, hs⟩
    rcases Prod.mk.injEq .. ▸ hs with ⟨rfl, rfl⟩
    rfl
  have e₂ : sc₂ = fallback_score user_lat user_lng s₂ := by
    rcases List.mem_map.mp h₂ with ⟨s, _, hs⟩
    rcases Prod.mk.injEq .. ▸ hs with ⟨rfl, rfl⟩
    rfl
  refine ⟨e₁, ?_⟩
  rw [e₁, e₂]
  unfold fallback_score
  have : 100 - haversine_distance_m ((user_lat : ℝ), (user_lng : ℝ))
          ((s₂.latitude : ℝ), (s₂.longitude : ℝ)) / 10 ≤
        100 - haversine_distance_m ((user_lat : ℝ), (user_lng : ℝ))
          ((s₁.latitude : ℝ), (s₁.longitude : ℝ)) / 10 := by
    linarith
  exact max_le_max le_rfl this

/-- C9 witness: the theorem applied to a one-spot list with the spot at the
user's own coordinates. -/
theorem fallback_closer_scores_higher_witness :
    fallback_score 0 0 spotNoMax = fallback_score 0 0 spotNoMax ∧
      fallback_score 0 0 spotNoMax ≤ fallback_score 0 0 spotNoMax := by
  have h := fallback_closer_scores_higher [spotNoMax] 0 0 spotNoMax spotNoMax
    (fallback_score 0 0 spotNoMax) (fallback_score 0 0 spotNoMax)
    (by simp [fallback_scored]) (by simp [fallback_scored]) le_rfl
  exact ⟨h.1 ▸ rfl, h.2⟩

/-- The `RankingAlgorithm` enum of `app/services/ml/ab_testing.py`. -/
inductive RankingAlgorithm where
  | distance_only
  | ml_powered
  | hybrid
deriving DecidableEq

/-- State of `ABTestTracker` relevant to assignment: the `user_assignments`
dict as an insertion-ordered association list (the `conversions` counters are
never read or written by `assign_algorithm` and are omitted). -/
structure ABTestTracker where
  user_assignments : List (String × RankingAlgorithm)
deriving DecidableEq

/-- Lookup in the `user_assignments` dict (keys are unique: entries are only
added when the key is absent). -/
def lookupAssignment (t : ABTestTracker) (uid : String) : Option RankingAlgorithm :=
  (t.user_assignments.find? (fun p => p.1 == uid)).map (fun p => p.2)

/-- Embedding of `ABTestTracker.assign_algorithm`.  Python's process-seeded
`hash` is an opaque integer-valued function, passed as `hash`; the
`random.choice` between the two-element list for anonymous callers is an
oracle `coin`.  `if not user_id` is true for `None` AND for the empty
string. -/
def assign_algorithm (hash : String → ℤ) (coin : Bool) (t : ABTestTracker)
    (user_id : Option String) : RankingAlgorithm × ABTestTracker :=
  match user_id with
  | none =>
    ((if coin then RankingAlgorithm.distance_only else RankingAlgorithm.ml_powered), t)
  | some uid =>
    if uid = "" then
      ((if coin then RankingAlgorithm.distance_only else RankingAlgorithm.ml_powered), t)
    else
      match lookupAssignment t uid with
      | some a => (a, t)
      | none =>
        let a := if hash uid % 2 = 0 then RankingAlgorithm.ml_powered
                 else RankingAlgorithm.distance_only
        (a, { user_assignments := t.user_assignments ++ [(uid, a)] })

/-- Replay a list of `assign_algorithm` calls (user id and anonymous-coin
oracle for each) against a tracker state. -/
def runAssigns (hash : String → ℤ) (t : ABTestTracker) :
    List (Option String × Bool) → ABTestTracker
  | [] => t
  | (uid, coin) :: rest => runAssigns hash (assign_algorithm hash coin t uid).2 rest

theorem find?_append_of_none {p : α → Bool} :
    ∀ {l : List α} (l' : List α), l.find? p = none → (l ++ l').find? p = l'.find? p
  | [], _, _ => rfl
  | x :: xs, l', h => by
    rw [List.find?_cons] at h
    cases hx : p x with
    | true => rw [hx] at h; exact absurd h (by simp)
    | false =>
      rw [hx] at h
      rw [List.cons_append, List.find?_cons, hx]
      exact find?_append_of_none l' h

theorem lookupAssignment_assign (hash : String → ℤ) (coin : Bool) (t : ABTestTracker)
    (uid : String) (h : uid ≠ "") :
    lookupAssignment (assign_algorithm hash coin t (some uid)).2 uid =
      some (assign_algorithm hash coin t (some uid)).1 := by
  simp only [assign_algorithm]
  rw [if_neg h]
  cases hl : lookupAssignment t uid with
  | some a => simpa using hl
  | none =>
    simp only
    unfold lookupAssignment at hl ⊢
    have hf : t.user_assignments.find? (fun p => p.1 == uid) = none := by
      rcases hf : t.user_assignments.find? (fun p => p.1 == uid) with _ | p
      · exact hf
      · rw [hf] at hl; simp at hl
    rw [find?_append_of_none _ hf]
    simp [List.find?]

theorem lookupAssignment_preserved (hash : String → ℤ) (coin : Bool) (t : ABTestTracker)
    (uid : String) (a : RankingAlgorithm) (o : Option String)
    (h : lookupAssignment t uid = some a) :
    lookupAssignment (assign_algorithm hash coin t o).2 uid = some a := by
  match o with
  | none => exact h
  | some uid' =>
    simp only [assign_algorithm]
    by_cases he : uid' = ""
    · simpa [he] using h
    · rw [if_neg he]
      cases hl : lookupAssignment t uid' with
      | some _ => exact h
      | none =>
        simp only
        unfold lookupAssignment at h ⊢
        rcases hf : t.user_assignments.find? (fun p => p.1 == uid) with _ | p
        · rw [hf] at h; simp at h
        · rw [hf] at h
          rw [List.find?_append, hf]
          simpa using h

theorem assign_of_lookup (hash : String → ℤ) (coin : Bool) (t : ABTestTracker)
    (uid : String) (a : RankingAlgorithm) (h : uid ≠ "")
    (hl : lookupAssignment t uid = some a) :
    assign_algorithm hash coin t (some uid) = (a, t) := by
  simp only [assign_algorithm]
  rw [if_neg h, hl]

theorem lookupAssignment_runAssigns (hash : String → ℤ) (uid : String)
    (a : RankingAlgorithm) :
    ∀ (ops : List (Option String × Bool)) (t : ABTestTracker),
      lookupAssignment t uid = some a →
      lookupAssignment (runAssigns hash t ops) uid = some a
  | [], _, h => h
  | (uid', coin) :: rest, t, h =>
    lookupAssignment_runAssigns hash uid a rest _
      (lookupAssignment_preserved hash coin t uid a uid' h)

/-- C6: for a non-empty user id, once `assign_algorithm` has returned a
variant on a tracker instance, every later `assign_algorithm` call for the
same user id — after any interleaved sequence of assignment calls for
arbitrary users, with arbitrary hash and anonymous-choice oracles — returns
the same variant. -/
theorem assign_algorithm_consistent (hash : String → ℤ) (t : ABTestTracker)
    (uid : String) (h : uid ≠ "") (coin₁ : Bool)
    (ops : List (Option String × Bool)) (coin₂ : Bool) :
    (assign_algorithm hash coin₂
        (runAssigns hash (assign_algorithm hash coin₁ t (some uid)).2 ops)
        (some uid)).1 =
      (assign_algorithm hash coin₁ t (some uid)).1 := by
  have h₁ := lookupAssignment_assign hash coin₁ t uid h
  have h₂ := lookupAssignment_runAssigns hash uid _ ops _ h₁
  rw [assign_of_lookup hash coin₂ _ uid _ h h₂]

/-- C6 witness: user "abc" on a fresh tracker, with one interleaved
assignment for another user, under a concrete hash. -/
theorem assign_algorithm_consistent_witness :
    (assign_algorithm (fun s => (s.length : ℤ)) false
        (runAssigns (fun s => (s.length : ℤ))
          (assign_algorithm (fun s => (s.length : ℤ)) true ⟨[]⟩ (some "abc")).2
          [(some "xy", true), (none, false)])
        (some "abc")).1 =
      (assign_algorithm (fun s => (s.length : ℤ)) true ⟨[]⟩ (some "abc")).1 :=
  assign_algorithm_consistent (fun s => (s.length : ℤ)) ⟨[]⟩ "abc" (by decide) true
    [(some "xy", true), (none, false)] false

/-- No stored assignment is the `hybrid` variant. -/
def noHybrid (t : ABTestTracker) : Prop :=
  ∀ p ∈ t.user_assignments, p.2 ≠ RankingAlgorithm.hybrid

/-- C10: a fresh tracker stores no `hybrid` assignment, and from any such
state `assign_algorithm` — anonymous or identified, for any hash and coin —
never returns the `hybrid` variant and never stores one; so along every
reachable execution the `hybrid` variant declared in `RankingAlgorithm` is
dead. -/
theorem assign_algorithm_never_hybrid :
    noHybrid ⟨[]⟩ ∧
    ∀ (hash : String → ℤ) (coin : Bool) (t : ABTestTracker) (o : Option String),
      noHybrid t →
      (assign_algorithm hash coin t o).1 ≠ RankingAlgorithm.hybrid ∧
        noHybrid (assign_algorithm hash coin t o).2 := by
  refine ⟨by simp [noHybrid], ?_⟩
  intro hash coin t o hnh
  match o with
  | none =>
    simp only [assign_algorithm]
    exact ⟨by cases coin <;> simp, hnh⟩
  | some uid =>
    simp only [assign_algorithm]
    by_cases he : uid = ""
    · rw [if_pos he]
      exact ⟨by cases coin <;> simp, hnh⟩
    · rw [if_neg he]
      cases hl : lookupAssignment t uid with
      | some a =>
        refine ⟨?_, hnh⟩
        unfold lookupAssignment at hl
        rcases hf : t.user_assignments.find? (fun p => p.1 == uid) with _ | p
        · rw [hf] at hl; simp at hl
        · rw [hf] at hl
          simp at hl
          have hp := List.mem_of_find?_eq_some hf
          have := hnh p hp
          simpa [← hl] using this
      | none =>
        constructor
        · by_cases hh : hash uid % 2 = 0 <;> simp [hh]
        · intro p hp
          rcases List.mem_append.mp hp with hp' | hp'
          · exact hnh p hp'
          · rcases List.mem_singleton.mp hp' with rfl
            by_cases hh : hash uid % 2 = 0 <;> simp [hh]

/-- C10 witness: the invariant clause applied to a fresh tracker and the user
id "abc" under a concrete hash, the fresh-tracker hypothesis discharged by
the first clause. -/
theorem assign_algorithm_never_hybrid_witness :
    (assign_algorithm (fun s => (s.length : ℤ)) true ⟨[]⟩ (some "abc")).1 ≠
      RankingAlgorithm.hybrid ∧
    noHybrid (assign_algorithm (fun s => (s.length : ℤ)) true ⟨[]⟩ (some "abc")).2 :=
  assign_algorithm_never_hybrid.2 (fun s => (s.length : ℤ)) true ⟨[]⟩ (some "abc")
    assign_algorithm_never_hybrid.1

/-- Subscription bounds stored for a client (`app/websocket_manager.py`): a
dict with optional `min_lat` / `max_lat` / `min_lng` / `max_lng` entries. -/
structure WsBounds where
  min_lat : Option ℚ
  max_lat : Option ℚ
  min_lng : Option ℚ
  max_lng : Option ℚ
deriving DecidableEq

/-- Embedding of `ConnectionManager._is_within_bounds` body for a stored
(truthy) bounds dict: each present bound that excludes the point returns
`False`, else `True`.  (The `if not bounds: return True` head line is the
falsy-dict case; the broadcast guard only reaches this function with a
truthy subscription.) -/
def is_within_bounds (lat lng : ℚ) (b : WsBounds) : Bool :=
  if (match b.min_lat with | some m => decide (lat < m) | none => false) then false
  else if (match b.max_lat with | some m => decide (m < lat) | none => false) then false
  else if (match b.min_lng with | some m => decide (lng < m) | none => false) then false
  else if (match b.max_lng with | some m => decide (m < lng) | none => false) then false
  else true

/-- State of `ConnectionManager`: the set of active connections (a Python
`set`, so no duplicates in reachable states) and the subscriptions dict
(insertion-ordered association list with unique keys), with connections
named by naturals. -/
structure ConnectionManager where
  active_connections : List ℕ
  client_subscriptions : List (ℕ × Option WsBounds)
deriving DecidableEq

/-- `self.client_subscriptions.get(connection)`: `none` when the key is
absent, `some v` for a stored value `v` (itself an optional bounds dict). -/
def lookupSub (subs : List (ℕ × Option WsBounds)) (c : ℕ) : Option (Option WsBounds) :=
  (subs.find? (fun p => p.1 == c)).map (fun p => p.2)

/-- Embedding of `ConnectionManager.disconnect`: remove the connection from
the active set if present, and delete its subscription entry if present. -/
def disconnect (m : ConnectionManager) (c : ℕ) : ConnectionManager :=
  { active_connections :=
      if c ∈ m.active_connections then m.active_connections.erase c
      else m.active_connections,
    client_subscriptions :=
      if (lookupSub m.client_subscriptions c).isSome then
        m.client_subscriptions.eraseP (fun p => p.1 == c)
      else m.client_subscriptions }

/-- The per-connection guard of `broadcast_update`: deliver unless a truthy
subscription is stored whose bounds exclude the spot (`if subscription and
not self._is_within_bounds(...): continue`). -/
def wantsUpdate (m : ConnectionManager) (lat lng : ℚ) (c : ℕ) : Bool :=
  match lookupSub m.client_subscriptions c with
  | some (some b) => is_within_bounds lat lng b
  | _ => true

/-- The delivery loop of `broadcast_update`: walk the active connections,
skip the filtered ones, send to the rest; `send_json` success is the oracle
`sendOk`.  Returns (successfully delivered, failed) connection lists. -/
def broadcastGo (m : ConnectionManager) (sendOk : ℕ → Bool) (lat lng : ℚ) :
    List ℕ → List ℕ × List ℕ
  | [] => ([], [])
  | c :: rest =>
    if wantsUpdate m lat lng c then
      if sendOk c then
        (c :: (broadcastGo m sendOk lat lng rest).1, (broadcastGo m sendOk lat lng rest).2)
      else
        ((broadcastGo m sendOk lat lng rest).1, c :: (broadcastGo m sendOk lat lng rest).2)
    else broadcastGo m sendOk lat lng rest

/-- Embedding of `ConnectionManager.broadcast_update`: early return on an
empty active set; otherwise run the delivery loop against the pre-loop state
and then `disconnect` each connection whose send failed.  Returns the new
manager state and the list of connections the update was delivered to. -/
def broadcast_update (m : ConnectionManager) (sendOk : ℕ → Bool) (lat lng : ℚ) :
    ConnectionManager × List ℕ :=
  if m.active_connections = [] then (m, [])
  else
    ((broadcastGo m sendOk lat lng m.active_connections).2.foldl disconnect m,
      (broadcastGo m sendOk lat lng m.active_connections).1)

theorem mem_broadcastGo_delivered (m : ConnectionManager) (sendOk : ℕ → Bool)
    (lat lng : ℚ) (c : ℕ) :
    ∀ l : List ℕ, c ∈ (broadcastGo m sendOk lat lng l).1 ↔
      c ∈ l ∧ wantsUpdate m lat lng c = true ∧ sendOk c = true
  | [] => by simp [broadcastGo]
  | d :: rest => by
    have ih := mem_broadcastGo_delivered m sendOk lat lng c rest
    unfold broadcastGo
    cases hw : wantsUpdate m lat lng d with
    | false =>
      rw [if_neg (by simp), ih]
      constructor
      · rintro ⟨h1, h2⟩
        exact ⟨List.mem_cons_of_mem _ h1, h2⟩
      · rintro ⟨h1, h2, h3⟩
        rcases List.mem_cons.mp h1 with rfl | h1'
        · exact absurd h2 (by simp [hw])
        · exact ⟨h1', h2, h3⟩
    | true =>
      cases hs : sendOk d with
      | false =>
        rw [if_pos rfl, if_neg (by simp)]
        show c ∈ (broadcastGo m sendOk lat lng rest).1 ↔ _
        rw [ih]
        constructor
        · rintro ⟨h1, h2⟩
          exact ⟨List.mem_cons_of_mem _ h1, h2⟩
        · rintro ⟨h1, h2, h3⟩
          rcases List.mem_cons.mp h1 with rfl | h1'
          · exact absurd h3 (by simp [hs])
          · exact ⟨h1', h2, h3⟩
      | true =>
        rw [if_pos rfl, if_pos rfl]
        show c ∈ d :: (broadcastGo m sendOk lat lng rest).1 ↔ _
        rw [List.mem_cons, ih]
        constructor
        · rintro (rfl | ⟨h1, h2, h3⟩)
          · exact ⟨List.mem_cons_self _ _, hw, hs⟩
          · exact ⟨List.mem_cons_of_mem _ h1, h2, h3⟩
        · rintro ⟨h1, h2, h3⟩
          rcases List.mem_cons.mp h1 with rfl | h1'
          · exact Or.inl rfl
          · exact Or.inr ⟨h1', h2, h3⟩

theorem mem_broadcastGo_failed (m : ConnectionManager) (sendOk : ℕ → Bool)
    (lat lng : ℚ) (c : ℕ) :
    ∀ l : List ℕ, c ∈ (broadcastGo m sendOk lat lng l).2 ↔
      c ∈ l ∧ wantsUpdate m lat lng c = true ∧ sendOk c = false
  | [] => by simp [broadcastGo]
  | d :: rest => by
    have ih := mem_broadcastGo_failed m sendOk lat lng c rest
    unfold broadcastGo
    cases hw : wantsUpdate m lat lng d with
    | false =>
      rw [if_neg (by simp), ih]
      constructor
      · rintro ⟨h1, h2⟩
        exact ⟨List.mem_cons_of_mem _ h1, h2⟩
      · rintro ⟨h1, h2, h3⟩
        rcases List.mem_cons.mp h1 with rfl | h1'
        · exact absurd h2 (by simp [hw])
        · exact ⟨h1', h2, h3⟩
    | true =>
      cases hs : sendOk d with
      | true =>
        rw [if_pos rfl, if_pos rfl]
        show c ∈ (broadcastGo m sendOk lat lng rest).2 ↔ _
        rw [ih]
        constructor
        · rintro ⟨h1, h2⟩
          exact ⟨List.mem_cons_of_mem _ h1, h2⟩
        · rintro ⟨h1, h2, h3⟩
          rcases List.mem_cons.mp h1 with rfl | h1'
          · exact absurd hs (by simp [h3])
          · exact ⟨h1', h2, h3⟩
      | false =>
        rw [if_pos rfl, if_neg (by simp)]
        show c ∈ d :: (broadcastGo m sendOk lat lng rest).2 ↔ _
        rw [List.mem_cons, ih]
        constructor
        · rintro (rfl | ⟨h1, h2, h3⟩)
          · exact ⟨List.mem_cons_self _ _, hw, hs⟩
          · exact ⟨List.mem_cons_of_mem _ h1, h2, h3⟩
        · rintro ⟨h1, h2, h3⟩
          rcases List.mem_cons.mp h1 with rfl | h1'
          · exact Or.inl rfl
          · exact Or.inr ⟨h1', h2, h3⟩

/-- C7: a registered connection whose stored bounds exclude the spot's
coordinates is never among the delivered connections of a broadcast, and a
registered connection with a null (`None`) subscription is delivered every
broadcast whose send to it succeeds. -/
theorem broadcast_respects_subscriptions (m : ConnectionManager) (sendOk : ℕ → Bool)
    (lat lng : ℚ) (c : ℕ) (b : WsBounds) :
    (lookupSub m.client_subscriptions c = some (some b) →
      is_within_bounds lat lng b = false →
      c ∉ (broadcast_update m sendOk lat lng).2) ∧
    (lookupSub m.client_subscriptions c = some none →
      c ∈ m.active_connections → sendOk c = true →
      c ∈ (broadcast_update m sendOk lat lng).2) := by
  constructor
  · intro hsub hout hmem
    unfold broadcast_update at hmem
    by_cases hempty : m.active_connections = []
    · simp [hempty] at hmem
    · rw [if_neg hempty] at hmem
      have hall := (mem_broadcastGo_delivered m sendOk lat lng c m.active_connections).mp hmem
      have hw : wantsUpdate m lat lng c = false := by
        simp [wantsUpdate, hsub, hout]
      exact absurd hall.2.1 (by simp [hw])
  · intro hsub hmem hok
    unfold broadcast_update
    have hempty : ¬ m.active_connections = [] := by
      intro h
      rw [h] at hmem
      exact absurd hmem (List.not_mem_nil c)
    rw [if_neg hempty]
    refine (mem_broadcastGo_delivered m sendOk lat lng c m.active_connections).mpr
      ⟨hmem, ?_, hok⟩
    simp [wantsUpdate, hsub]

/-- C7 witness: a two-connection manager — connection 1 subscribed to a box
excluding the spot, connection 2 with a null subscription — on a broadcast at
(50, 50): connection 1 is not delivered, connection 2 is. -/
theorem broadcast_respects_subscriptions_witness :
    1 ∉ (broadcast_update
        ⟨[1, 2], [(1, some ⟨some 0, some 10, some 0, some 10⟩), (2, none)]⟩
        (fun _ => true) 50 50).2 ∧
    2 ∈ (broadcast_update
        ⟨[1, 2], [(1, some ⟨some 0, some 10, some 0, some 10⟩), (2, none)]⟩
        (fun _ => true) 50 50).2 := by
  constructor
  · exact (broadcast_respects_subscriptions
      ⟨[1, 2], [(1, some ⟨some 0, some 10, some 0, some 10⟩), (2, none)]⟩
      (fun _ => true) 50 50 1 ⟨some 0, some 10, some 0, some 10⟩).1
      (by simp [lookupSub, List.find?])
      (by norm_num [is_within_bounds])
  · exact (broadcast_respects_subscriptions
      ⟨[1, 2], [(1, some ⟨some 0, some 10, some 0, some 10⟩), (2, none)]⟩
      (fun _ => true) 50 50 2 ⟨some 0, some 10, some 0, some 10⟩).2
      (by simp [lookupSub, List.find?]) (by simp) rfl

theorem mem_disconnect_active {m : ConnectionManager} {c a : ℕ}
    (h : a ∈ (disconnect m c).active_connections) : a ∈ m.active_connections := by
  simp only [disconnect] at h
  by_cases hc : c ∈ m.active_connections
  · rw [if_pos hc] at h
    exact (List.erase_sublist c m.active_connections).subset h
  · rwa [if_neg hc] at h

theorem disconnect_active_nodup {m : ConnectionManager} (c : ℕ)
    (h : m.active_connections.Nodup) : (disconnect m c).active_connections.Nodup := by
  simp only [disconnect]
  split
  · exact h.erase c
  · exact h

theorem not_mem_disconnect_self {m : ConnectionManager} {c : ℕ}
    (h : m.active_connections.Nodup) : c ∉ (disconnect m c).active_connections := by
  simp only [disconnect]
  split
  · exact h.not_mem_erase
  · next hc => exact hc

theorem not_mem_foldl_disconnect {c : ℕ} :
    ∀ (ds : List ℕ) (m : ConnectionManager), c ∉ m.active_connections →
      c ∉ (ds.foldl disconnect m).active_connections
  | [], _, h => h
  | d :: rest, m, h =>
    not_mem_foldl_disconnect rest (disconnect m d) (fun hm => h (mem_disconnect_active hm))

theorem removed_foldl_disconnect {c : ℕ} :
    ∀ (ds : List ℕ) (m : ConnectionManager), m.active_connections.Nodup → c ∈ ds →
      c ∉ (ds.foldl disconnect m).active_connections
  | [], _, _, h => absurd h (List.not_mem_nil c)
  | d :: rest, m, hnd, h => by
    rcases List.mem_cons.mp h with rfl | h'
    · exact not_mem_foldl_disconnect rest (disconnect m c) (not_mem_disconnect_self hnd)
    · exact removed_foldl_disconnect rest (disconnect m d) (disconnect_active_nodup d hnd) h'

theorem find?_key_none_of_not_mem {c : ℕ} (l : List (ℕ × Option WsBounds))
    (h : c ∉ l.map Prod.fst) : l.find? (fun p => p.1 == c) = none := by
  rw [List.find?_eq_none]
  intro x hx hpx
  exact h (List.mem_map.mpr ⟨x, hx, by simpa using hpx⟩)

theorem find?_eraseP_self {c : ℕ} :
    ∀ l : List (ℕ × Option WsBounds), (l.map Prod.fst).Nodup →
      (l.eraseP (fun p => p.1 == c)).find? (fun p => p.1 == c) = none
  | [], _ => rfl
  | p :: ps, h => by
    rw [List.map_cons, List.nodup_cons] at h
    by_cases hp : (p.1 == c) = true
    · have he : List.eraseP (fun q => q.1 == c) (p :: ps) = ps := by
        simp [List.eraseP_cons, hp]
      rw [he]
      refine find?_key_none_of_not_mem ps ?_
      have : p.1 = c := by simpa using hp
      exact this ▸ h.1
    · rw [Bool.not_eq_true] at hp
      have he : List.eraseP (fun q => q.1 == c) (p :: ps) =
          p :: List.eraseP (fun q => q.1 == c) ps := by
        simp [List.eraseP_cons, hp]
      rw [he]
      have hf : List.find? (fun q => q.1 == c)
          (p :: List.eraseP (fun q => q.1 == c) ps) =
          List.find? (fun q => q.1 == c) (List.eraseP (fun q => q.1 == c) ps) := by
        simp [List.find?_cons, hp]
      rw [hf]
      exact find?_eraseP_self ps h.2

theorem lookupSub_disconnect_self {m : ConnectionManager} {c : ℕ}
    (h : (m.client_subscriptions.map Prod.fst).Nodup) :
    lookupSub (disconnect m c).client_subscriptions c = none := by
  simp only [disconnect, lookupSub]
  split
  · rw [find?_eraseP_self m.client_subscriptions h]
    rfl
  · next hn =>
    have := Option.not_isSome_iff_eq_none.mp hn
    simpa [lookupSub] using this

theorem lookupSub_none_disconnect {m : ConnectionManager} {c d : ℕ}
    (h : lookupSub m.client_subscriptions c = none) :
    lookupSub (disconnect m d).client_subscriptions c = none := by
  have h0 : m.client_subscriptions.find? (fun p => p.1 == c) = none :=
    Option.map_eq_none'.mp h
  simp only [disconnect, lookupSub]
  split
  · rw [Option.map_eq_none', List.find?_eq_none]
    intro x hx
    exact List.find?_eq_none.mp h0 x ((List.eraseP_sublist _).subset hx)
  · exact h

theorem subs_keys_nodup_disconnect {m : ConnectionManager} (d : ℕ)
    (h : (m.client_subscriptions.map Prod.fst).Nodup) :
    ((disconnect m d).client_subscriptions.map Prod.fst).Nodup := by
  simp only [disconnect]
  split
  · exact List.Nodup.sublist (List.Sublist.map Prod.fst (List.eraseP_sublist _)) h
  · exact h

theorem lookupSub_none_foldl {c : ℕ} :
    ∀ (ds : List ℕ) (m : ConnectionManager), lookupSub m.client_subscriptions c = none →
      lookupSub (ds.foldl disconnect m).client_subscriptions c = none
  | [], _, h => h
  | d :: rest, m, h => lookupSub_none_foldl rest _ (lookupSub_none_disconnect h)

theorem subs_removed_foldl {c : ℕ} :
    ∀ (ds : List ℕ) (m : ConnectionManager),
      (m.client_subscriptions.map Prod.fst).Nodup → c ∈ ds →
      lookupSub (ds.foldl disconnect m).client_subscriptions c = none
  | [], _, _, h => absurd h (List.not_mem_nil c)
  | d :: rest, m, hnd, h => by
    rcases List.mem_cons.mp h with rfl | h'
    · exact lookupSub_none_foldl rest _ (lookupSub_disconnect_self hnd)
    · exact subs_removed_foldl rest _ (subs_keys_nodup_disconnect d hnd) h'

/-- C8: when the send to one connection fails during a broadcast, that
connection is unregistered — gone from the active set and from the
subscription map of the resulting state — while every other eligible
connection whose send succeeds is still delivered the update: one failure
never aborts the broadcast.  (The no-duplicate hypotheses state that the
active set is a Python `set` and the subscriptions a `dict`.) -/
theorem broadcast_failure_drops_connection (m : ConnectionManager) (sendOk : ℕ → Bool)
    (lat lng : ℚ) (c : ℕ)
    (hndA : m.active_connections.Nodup)
    (hndS : (m.client_subscriptions.map Prod.fst).Nodup)
    (hc : c ∈ m.active_connections)
    (helig : wantsUpdate m lat lng c = true)
    (hfail : sendOk c = false) :
    c ∉ (broadcast_update m sendOk lat lng).1.active_connections ∧
    lookupSub (broadcast_update m sendOk lat lng).1.client_subscriptions c = none ∧
    (∀ d ∈ m.active_connections, wantsUpdate m lat lng d = true → sendOk d = true →
      d ∈ (broadcast_update m sendOk lat lng).2) := by
  have hempty : ¬ m.active_connections = [] := by
    intro h
    rw [h] at hc
    exact absurd hc (List.not_mem_nil c)
  have hcf : c ∈ (broadcastGo m sendOk lat lng m.active_connections).2 :=
    (mem_broadcastGo_failed m sendOk lat lng c m.active_connections).mpr ⟨hc, helig, hfail⟩
  unfold broadcast_update
  rw [if_neg hempty]
  refine ⟨?_, ?_, ?_⟩
  · exact removed_foldl_disconnect _ m hndA hcf
  · exact subs_removed_foldl _ m hndS hcf
  · intro d hd hw hs
    exact (mem_broadcastGo_delivered m sendOk lat lng d m.active_connections).mpr ⟨hd, hw, hs⟩

/-- C8 witness: two null-subscribed connections, the send to connection 1
fails: 1 is unregistered from both registries while 2 is still delivered. -/
theorem broadcast_failure_drops_connection_witness :
    1 ∉ (broadcast_update ⟨[1, 2], [(1, none), (2, none)]⟩ (fun c => c != 1) 0 0).1.active_connections ∧
    lookupSub (broadcast_update ⟨[1, 2], [(1, none), (2, none)]⟩ (fun c => c != 1) 0 0).1.client_subscriptions 1 = none ∧
    (∀ d ∈ [1, 2], wantsUpdate ⟨[1, 2], [(1, none), (2, none)]⟩ 0 0 d = true → (fun c => c != 1) d = true →
      d ∈ (broadcast_update ⟨[1, 2], [(1, none), (2, none)]⟩ (fun c => c != 1) 0 0).2) :=
  broadcast_failure_drops_connection ⟨[1, 2], [(1, none), (2, none)]⟩ (fun c => c != 1) 0 0 1
    (by decide) (by decide) (by decide)
    (by simp [wantsUpdate, lookupSub, List.find?]) (by decide)
